import Mathlib

/-!
Verification of the TikTok scraper service (`TiktokScrapService`).

This file shallowly embeds the pure computational core of the service:
the text matcher (`norm` / `contains`), the LRU result cache
(`lruKeyRaw` / `lruGet` / `lruSet`), search-URL construction
(`buildSearchUrl`), the comment-extraction pass (`extractComments`),
the page extractor's field-precedence logic (`extractFromPage`), the
next-video navigation ladder (`goToNextVideo`, with time modelled as an
explicit millisecond clock advanced by the `sleep` calls of the source),
and the cache-or-scrape orchestration (`scrapeAnnotateAndCache`, with
the browser run abstracted as an oracle producing extracted records).

Effectful browser interaction (DOM queries, network) is modelled by
quantifying over the data those interactions would produce; everything
downstream of that data is translated directly from the source.
-/

namespace TiktokScrap

/-! ## Text helpers

JS string primitives used by the service, modelled character-wise.
`jsTrim` models `String.prototype.trim`, `jsToLowerChar` models
`toLowerCase` on the ASCII and Latin-1 ranges, `nfdChar` models
`normalize('NFD')` on precomposed Latin-1 lowercase letters (identity
elsewhere), and `isDiacriticChar` models the `\p{Diacritic}` class on
the combining-mark block plus the Latin-1 spacing diacritics. -/

def isJsWhitespace (c : Char) : Bool :=
  c = ' ' || c = '\t' || c = '\n' || c = '\r' ||
  c.toNat = 0xB || c.toNat = 0xC || c.toNat = 0xA0 ||
  c.toNat = 0xFEFF || c.toNat = 0x2028 || c.toNat = 0x2029

def jsTrim (s : String) : String :=
  String.mk (((s.data.dropWhile isJsWhitespace).reverse.dropWhile isJsWhitespace).reverse)

def jsToLowerChar (c : Char) : Char :=
  if 'A' ≤ c && c ≤ 'Z' then Char.ofNat (c.toNat + 32)
  else if 0xC0 ≤ c.toNat && c.toNat ≤ 0xDE && c.toNat ≠ 0xD7 then Char.ofNat (c.toNat + 32)
  else c

def jsToLowerStr (s : String) : String :=
  String.mk (s.data.map jsToLowerChar)

/-- NFD decomposition for the precomposed Latin-1 lowercase letters
(base letter followed by a combining mark); identity on other characters. -/
def nfdChar (c : Char) : List Char :=
  match c.toNat with
  | 0xE0 => ['a', Char.ofNat 0x300] | 0xE1 => ['a', Char.ofNat 0x301]
  | 0xE2 => ['a', Char.ofNat 0x302] | 0xE3 => ['a', Char.ofNat 0x303]
  | 0xE4 => ['a', Char.ofNat 0x308] | 0xE5 => ['a', Char.ofNat 0x30A]
  | 0xE7 => ['c', Char.ofNat 0x327]
  | 0xE8 => ['e', Char.ofNat 0x300] | 0xE9 => ['e', Char.ofNat 0x301]
  | 0xEA => ['e', Char.ofNat 0x302] | 0xEB => ['e', Char.ofNat 0x308]
  | 0xEC => ['i', Char.ofNat 0x300] | 0xED => ['i', Char.ofNat 0x301]
  | 0xEE => ['i', Char.ofNat 0x302] | 0xEF => ['i', Char.ofNat 0x308]
  | 0xF1 => ['n', Char.ofNat 0x303]
  | 0xF2 => ['o', Char.ofNat 0x300] | 0xF3 => ['o', Char.ofNat 0x301]
  | 0xF4 => ['o', Char.ofNat 0x302] | 0xF5 => ['o', Char.ofNat 0x303]
  | 0xF6 => ['o', Char.ofNat 0x308]
  | 0xF9 => ['u', Char.ofNat 0x300] | 0xFA => ['u', Char.ofNat 0x301]
  | 0xFB => ['u', Char.ofNat 0x302] | 0xFC => ['u', Char.ofNat 0x308]
  | 0xFD => ['y', Char.ofNat 0x301] | 0xFF => ['y', Char.ofNat 0x308]
  | _ => [c]

def isDiacriticChar (c : Char) : Bool :=
  (0x300 ≤ c.toNat && c.toNat ≤ 0x36F) ||
  c.toNat = 0x5E || c.toNat = 0x60 || c.toNat = 0xA8 ||
  c.toNat = 0xAF || c.toNat = 0xB4 || c.toNat = 0xB7 || c.toNat = 0xB8

/-- Model of `norm` from the source: lowercase, NFD-normalize, strip diacritics.
The optional/nullable argument is modelled as `Option String`
(`(s ?? '')` becomes `Option.getD`). -/
def norm (s : Option String) : String :=
  String.mk (((((s.getD "").data.map jsToLowerChar).flatMap nfdChar)).filter
    (fun c => !isDiacriticChar c))

/-- Boolean substring test on character lists (models JS `String.prototype.includes`). -/
def hasSub (p : List Char) : List Char → Bool
  | [] => p.isEmpty
  | c :: rest => ((c :: rest).take p.length == p) || hasSub p rest

/-- Model of `contains` from the source: `!!n && h.includes(n)` after normalizing both
sides (JS string truthiness is non-emptiness). -/
def contains (haystack needle : Option String) : Bool :=
  let h := norm haystack
  let n := norm needle
  !n.data.isEmpty && hasSub n.data h.data

/-- Propositional substring relation: `n` occurs contiguously inside `h`. -/
def SubstringOf (n h : List Char) : Prop := ∃ pre post, h = pre ++ n ++ post

theorem take_eq_iff_append (p l : List Char) :
    (l.take p.length == p) = true ↔ ∃ post, l = p ++ post := by
  rw [beq_iff_eq]
  constructor
  · intro h
    refine ⟨l.drop p.length, ?_⟩
    conv_lhs => rw [← List.take_append_drop p.length l]
    rw [h]
  · rintro ⟨post, rfl⟩
    simp

theorem hasSub_iff (p l : List Char) : hasSub p l = true ↔ SubstringOf p l := by
  induction l with
  | nil =>
    simp only [hasSub, List.isEmpty_iff, SubstringOf]
    constructor
    · rintro rfl; exact ⟨[], [], rfl⟩
    · rintro ⟨pre, post, h⟩
      rcases List.append_eq_nil.mp h.symm with ⟨h1, h2⟩
      exact (List.append_eq_nil.mp h1).2
  | cons c rest ih =>
    simp only [hasSub, Bool.or_eq_true, ih]
    constructor
    · rintro (h | ⟨pre, post, rfl⟩)
      · obtain ⟨post, hpost⟩ := (take_eq_iff_append p (c :: rest)).mp h
        exact ⟨[], post, by simpa using hpost⟩
      · exact ⟨c :: pre, post, by simp⟩
    · rintro ⟨pre, post, h⟩
      cases pre with
      | nil =>
        left
        exact (take_eq_iff_append p (c :: rest)).mpr ⟨post, by simpa using h⟩
      | cons x xs =>
        right
        refine ⟨xs, post, ?_⟩
        have h' : c :: rest = x :: (xs ++ p ++ post) := by
          simpa [List.cons_append] using h
        exact (List.cons.inj h').2

/-! ## Data model

The record types of the source (`ScrapedComment`, `ScrapedItem`,
`PerVideoMetrics`, `ScrapeRunMetrics`) and the cache entry type.
TS `string | null` / optional fields become `Option`;
ISO timestamp strings stay `String`; millisecond times are `Nat`. -/

structure ScrapedComment where
  username : String
  text : String
  time : Option String
  likes : Option Nat
deriving DecidableEq

structure ScrapedItem where
  url : String
  title : Option String
  description : Option String
  caption : Option String
  username : Option String
  authorUrl : Option String
  videoSrc : Option String
  comments : Option (List ScrapedComment)
  keywordMentioned : Option Bool
deriving DecidableEq

structure PerVideoMetrics where
  index : Nat
  urlBefore : Option String
  urlAfter : Option String
  startedAt : String
  endedAt : String
  durationMs : Nat
  extractionMs : Nat
  movedToNextMs : Option Nat
  commentsCount : Nat
  navAttempts : Nat
  navSucceeded : Bool
  errors : List String
deriving DecidableEq

structure ScrapeRunMetrics where
  runId : String
  mode : String
  queryOrStartUrl : String
  headless : Bool
  startedAt : String
  endedAt : String
  durationMs : Nat
  videosTargeted : Nat
  videosScraped : Nat
  navFailures : Nat
  captchas : Nat
  totalComments : Nat
  perVideo : List PerVideoMetrics
deriving DecidableEq

/-- One value of the service's `lru : Map<string, {items; metrics; createdAt}>`. -/
structure CacheEntry where
  items : List ScrapedItem
  metrics : ScrapeRunMetrics
  createdAt : Nat
deriving DecidableEq

/-- The `lru` map, modelled as an association list in insertion order
(JS `Map` iterates in insertion order; re-insertion moves a key to the end).
Keys are unique in every state produced by the operations below. -/
abbrev Cache := List (String × CacheEntry)

/-! ## Result cache (`lruKeyRaw` / `lruGet` / `lruSet`) -/

def lookup (c : Cache) (k : String) : Option CacheEntry :=
  (c.find? (fun p => p.1 == k)).map (fun p => p.2)

/-- JS `Map.delete`: removes the entry for `k` (keys are unique, so
filtering is equivalent). -/
def eraseKey (c : Cache) (k : String) : Cache :=
  c.filter (fun p => p.1 != k)

/-- Eviction loop `while (this.lru.size > this.CACHE_MAX_ENTRIES) delete oldest`:
drop entries from the front (oldest insertion) while over capacity. -/
def evictLru (maxEntries : Nat) : Cache → Cache
  | [] => []
  | e :: rest => if maxEntries < (e :: rest).length then evictLru maxEntries rest else e :: rest

/-- Model of `lruGet` from the source. `ttl` is `CACHE_TTL_MS`, `now` is `Date.now()`.
Returns the hit (if any) and the cache state after the call. -/
def lruGet (ttl : Nat) (now : Nat) (c : Cache) (k : String) : Option CacheEntry × Cache :=
  match lookup c k with
  | none => (none, c)
  | some hit =>
    if 0 < ttl ∧ ttl < now - hit.createdAt then
      (none, eraseKey c k)
    else
      (some hit, eraseKey c k ++ [(k, hit)])

/-- Model of `lruSet` from the source: delete any existing entry for the key,
insert at the recency tail stamped `createdAt = now`, then evict
least-recently-used entries while over capacity. -/
def lruSet (maxEntries : Nat) (now : Nat) (c : Cache) (k : String)
    (items : List ScrapedItem) (metrics : ScrapeRunMetrics) : Cache :=
  evictLru maxEntries (eraseKey c k ++ [(k, ⟨items, metrics, now⟩)])

/-! Decimal rendering of a JS number (the `${maxCount}` interpolation),
with a fuel-based digit loop (`fuel ≥ n` suffices) and a parser used to
prove injectivity. -/

def digitChar (d : Nat) : Char :=
  match d with
  | 0 => '0' | 1 => '1' | 2 => '2' | 3 => '3' | 4 => '4'
  | 5 => '5' | 6 => '6' | 7 => '7' | 8 => '8' | _ => '9'

/-- Little-endian decimal digits of `n` (empty for `0`). -/
def toDigitsRev : Nat → Nat → List Char
  | 0, _ => []
  | fuel + 1, n => if n = 0 then [] else digitChar (n % 10) :: toDigitsRev fuel (n / 10)

def natToStr (n : Nat) : String :=
  if n = 0 then "0" else String.mk (toDigitsRev n n).reverse

def digitVal (c : Char) : Nat := c.toNat - 48

def fromDigitsRev (l : List Char) : Nat :=
  l.foldr (fun c acc => digitVal c + 10 * acc) 0

def parseDec (s : String) : Nat := fromDigitsRev s.data.reverse

/-- Model of `lruKeyRaw` from the source: `(search ?? '').trim().toLowerCase() + '+' + maxCount`. -/
def lruKeyRaw (search : String) (maxCount : Nat) : String :=
  jsToLowerStr (jsTrim search) ++ "+" ++ natToStr maxCount

theorem digitVal_digitChar (d : Nat) (h : d < 10) : digitVal (digitChar d) = d := by
  interval_cases d <;> rfl

theorem fromDigitsRev_toDigitsRev (fuel n : Nat) (h : n ≤ fuel) :
    fromDigitsRev (toDigitsRev fuel n) = n := by
  induction fuel generalizing n with
  | zero => interval_cases n; rfl
  | succ f ih =>
    by_cases hn : n = 0
    · subst hn; rfl
    · have hdiv : n / 10 ≤ f := by
        have : n / 10 < n := Nat.div_lt_self (Nat.pos_of_ne_zero hn) (by omega)
        omega
      simp only [toDigitsRev, hn, if_false, fromDigitsRev, List.foldr]
      have := ih (n / 10) hdiv
      simp only [fromDigitsRev] at this
      rw [this, digitVal_digitChar (n % 10) (Nat.mod_lt n (by omega))]
      omega

theorem parseDec_natToStr (n : Nat) : parseDec (natToStr n) = n := by
  by_cases hn : n = 0
  · subst hn; rfl
  · simp only [natToStr, hn, if_false, parseDec, List.reverse_reverse]
    exact fromDigitsRev_toDigitsRev n n le_rfl

theorem natToStr_injective : Function.Injective natToStr := by
  intro a b h
  have := congrArg parseDec h
  rwa [parseDec_natToStr, parseDec_natToStr] at this

/-! ## URLs (`buildSearchUrl`, `normalizeVideoUrl`, URL-derived handle)

`parseUrl` models the relevant observable pieces of the JS `URL`
constructor for absolute `http(s)` URLs: `hostname` (userinfo and port
stripped, lowercased), `pathname`, and the raw query string. A URL with
an empty host makes the constructor throw, modelled as `none`. -/

structure ParsedUrl where
  hostname : String
  pathname : String
  query : String
deriving DecidableEq

/-- The regex test `/^https?:\/\//i`: a case-insensitive `http://` or
`https://` prefix. -/
def isHttpUrl (s : String) : Bool :=
  ((jsToLowerStr s).data.take 7 == "http://".data) ||
  ((jsToLowerStr s).data.take 8 == "https://".data)

def schemeLength (s : String) : Nat :=
  if (jsToLowerStr s).data.take 8 == "https://".data then 8 else 7

def parseUrl (s : String) : Option ParsedUrl :=
  if isHttpUrl s then
    let rest := s.data.drop (schemeLength s)
    let authority := rest.takeWhile (fun c => c ≠ '/' && c ≠ '?' && c ≠ '#')
    let hostPort := (authority.reverse.takeWhile (fun c => c ≠ '@')).reverse
    let host := hostPort.takeWhile (fun c => c ≠ ':')
    if host.isEmpty then none
    else
      let tail := rest.drop authority.length
      let pathname := tail.takeWhile (fun c => c ≠ '?' && c ≠ '#')
      let afterPath := tail.drop pathname.length
      let query :=
        match afterPath with
        | '?' :: qs => qs.takeWhile (fun c => c ≠ '#')
        | _ => []
      some ⟨jsToLowerStr (String.mk host),
            String.mk (if pathname.isEmpty then ['/'] else pathname),
            String.mk query⟩
  else none

def hostOf (s : String) : Option String := (parseUrl s).map (fun u => u.hostname)

/-- Split on a separator character (the query string on `&`). -/
def splitChar (sep : Char) : List Char → List (List Char)
  | [] => [[]]
  | c :: rest =>
    let r := splitChar sep rest
    if c = sep then [] :: r
    else (c :: r.headD []) :: r.tail

/-- First value of the query parameter named `name` (models
`url.searchParams.get(name)` up to percent-decoding, which the service's
inputs do not rely on): the part before the first `=` is the name, the
part after it the value. -/
def getQueryParam (query : String) (name : String) : Option String :=
  ((splitChar '&' query.data).find? (fun kv => kv.takeWhile (fun c => c ≠ '=') == name.data)).map
    (fun kv => String.mk ((kv.dropWhile (fun c => c ≠ '=')).drop 1))

def utf8Bytes (n : Nat) : List Nat :=
  if n < 0x80 then [n]
  else if n < 0x800 then [0xC0 + n / 64, 0x80 + n % 64]
  else if n < 0x10000 then [0xE0 + n / 4096, 0x80 + (n / 64) % 64, 0x80 + n % 64]
  else [0xF0 + n / 262144, 0x80 + (n / 4096) % 64, 0x80 + (n / 64) % 64, 0x80 + n % 64]

def hexDigitChar (n : Nat) : Char :=
  match n with
  | 0 => '0' | 1 => '1' | 2 => '2' | 3 => '3' | 4 => '4' | 5 => '5' | 6 => '6' | 7 => '7'
  | 8 => '8' | 9 => '9' | 10 => 'A' | 11 => 'B' | 12 => 'C' | 13 => 'D' | 14 => 'E' | _ => 'F'

def isUnreservedUri (c : Char) : Bool :=
  ('A' ≤ c && c ≤ 'Z') || ('a' ≤ c && c ≤ 'z') || ('0' ≤ c && c ≤ '9') ||
  c = '-' || c = '_' || c = '.' || c = '!' || c = '~' || c = '*' ||
  c = Char.ofNat 39 || c = '(' || c = ')'

def encodeURIComponent (s : String) : String :=
  String.mk (s.data.flatMap (fun c =>
    if isUnreservedUri c then [c]
    else (utf8Bytes c.toNat).flatMap
      (fun b => ['%', hexDigitChar (b / 16), hexDigitChar (b % 16)])))

/-- Model of `path.replace(/\//g, ' ')`. -/
def slashesToSpaces (s : String) : String :=
  String.mk (s.data.map (fun c => if c = '/' then ' ' else c))

/-- Model of `buildSearchUrl` from the source; `throw` becomes `Except.error`. -/
def buildSearchUrl (input : String) : Except String String :=
  let s := jsTrim input
  if s = "" then .error "Empty search query"
  else if isHttpUrl s then
    match parseUrl s with
    | none => .error "Invalid URL"
    | some u =>
      if hasSub "tiktok.com".data u.hostname.data then
        let q := (getQueryParam u.query "q").getD ""
        if q ≠ "" then .ok ("https://www.tiktok.com/search?q=" ++ encodeURIComponent q)
        else .ok ("https://www.tiktok.com/search?q=" ++
          encodeURIComponent (jsTrim (slashesToSpaces u.pathname)))
      else .error "Not a TikTok URL"
  else .ok ("https://www.tiktok.com/search?q=" ++ encodeURIComponent s)

/-- The regex `/\/@([^/]+)\/video\/(\d+)/` applied at one position:
`/@`, at least one non-`/` character (the user), then `/video/` and at
least one digit (the id). -/
def matchVideoAt (l : List Char) : Option (String × String) :=
  if l.take 2 = ['/', '@'] then
    let after := l.drop 2
    let user := after.takeWhile (fun c => c ≠ '/')
    if user.isEmpty then none
    else
      let rest := after.drop user.length
      if rest.take 7 = "/video/".data then
        let digits := (rest.drop 7).takeWhile Char.isDigit
        if digits.isEmpty then none else some (String.mk user, String.mk digits)
      else none
  else none

/-- Unanchored regex search: try each suffix, leftmost match wins. -/
def findVideoPath : List Char → Option (String × String)
  | [] => none
  | c :: rest => (matchVideoAt (c :: rest)).orElse (fun _ => findVideoPath rest)

/-- Model of `normalizeVideoUrl` from the source: parse, match the video-path
pattern on the pathname, rebuild the canonical URL; `null` on failure. -/
def normalizeVideoUrl (raw : String) : Option String :=
  match parseUrl raw with
  | none => none
  | some u =>
    match findVideoPath u.pathname.data with
    | none => none
    | some (user, vid) =>
      some ("https://www.tiktok.com/@" ++ user ++ "/video/" ++ vid)

/-- The regex `/tiktok\.com\/@([^/]+)/` applied at one position. -/
def matchHandleAt (l : List Char) : Option String :=
  if l.take 12 = "tiktok.com/@".data then
    let user := (l.drop 12).takeWhile (fun c => c ≠ '/')
    if user.isEmpty then none else some (String.mk user)
  else none

def handleScan : List Char → Option String
  | [] => none
  | c :: rest => (matchHandleAt (c :: rest)).orElse (fun _ => handleScan rest)

/-- The `usernameFromUrl` fallback in `extractFromPage`:
`currentUrl.match(/tiktok\.com\/@([^/]+)/)`, first capture group. -/
def usernameFromUrl (url : String) : Option String :=
  handleScan url.data

/-! ## Annotator / filter

The annotation map inside `scrapeAnnotateAndCache`:
`{...v, keywordMentioned: !!(contains(v.description, keyword) ||
(v.comments ?? []).some(c => contains(c.text, keyword)))}` and the
`showVideoOnlyWithMatchKeyword` filter (JS truthiness on the
`keywordMentioned` field). -/

def mentionedIn (v : ScrapedItem) (keyword : String) : Bool :=
  contains v.description (some keyword) ||
    (v.comments.getD []).any (fun c => contains (some c.text) (some keyword))

def annotateItem (v : ScrapedItem) (keyword : String) : ScrapedItem :=
  { v with keywordMentioned := some (mentionedIn v keyword) }

def annotateItems (items : List ScrapedItem) (keyword : String) : List ScrapedItem :=
  items.map (fun v => annotateItem v keyword)

def filterMatched (items : List ScrapedItem) : List ScrapedItem :=
  items.filter (fun v => v.keywordMentioned.getD false)

/-! ## Comment extraction (`extractComments`)

The scroll/poll phase only mutates the live DOM; its outcome is the
final list of rendered comment text nodes, over which the final
`page.evaluate` extraction pass below is a pure function. A node
carries the data the pass reads: `textContent`, the resolved author
handle (`findHandleFrom`), and the text of the time / like-count
elements (`''` when the element is missing, as in the source). -/

structure CommentNode where
  rawText : String
  handle : Option String
  timeText : String
  likeText : String
deriving DecidableEq

/-- Model of `text.replace(/\s+/g, ' ')`: collapse every whitespace run to one space. -/
def collapseRuns (l : List Char) : List Char :=
  l.foldr
    (fun c acc =>
      if isJsWhitespace c then
        match acc with
        | ' ' :: _ => acc
        | _ => ' ' :: acc
      else c :: acc)
    []

def collapseWs (s : String) : String := jsTrim (String.mk (collapseRuns s.data))

def digitsVal (l : List Char) : Nat :=
  l.foldl (fun acc c => acc * 10 + digitVal c) 0

/-- One comment node processed as in the extraction pass. -/
def mkComment (t : CommentNode) (text : String) : ScrapedComment :=
  { username := t.handle.getD "unknown"
    text := text
    time := if jsTrim t.timeText = "" then none else some (jsTrim t.timeText)
    likes :=
      if jsTrim t.likeText = "" then none
      else some (digitsVal ((jsTrim t.likeText).data.filter Char.isDigit)) }

/-- The extraction loop: skip empty-collapsed-text nodes, push until
`results.length >= max`. -/
def extractLoop (max : Nat) : List CommentNode → List ScrapedComment → List ScrapedComment
  | [], acc => acc
  | t :: rest, acc =>
    let text := collapseWs t.rawText
    if text = "" then extractLoop max rest acc
    else
      let acc2 := acc ++ [mkComment t text]
      if max ≤ acc2.length then acc2 else extractLoop max rest acc2

/-- Model of the pure extraction pass of `extractComments`, including the final
`results.slice(0, max)`. -/
def extractComments (nodes : List CommentNode) (limit : Nat) : List ScrapedComment :=
  (extractLoop limit nodes []).take limit

/-! ## Page extractor (`extractFromPage`)

The oEmbed response and the in-page `page.evaluate` results are the
two data sources; the precedence chains below are translated from the
source verbatim. `orNullish` models `??`; `truthyStr` models a JS
truthiness test on a nullable string (both `null` and `''` are falsy). -/

structure OEmbedData where
  title : Option String
  author_name : Option String
  author_url : Option String
deriving DecidableEq

structure DomData where
  caption : Option String
  username : Option String
  authorUrl : Option String
  videoSrc : Option String
  ogTitle : Option String
  metaDesc : Option String
  url : String
deriving DecidableEq

def orNullish (a b : Option String) : Option String :=
  match a with
  | some x => some x
  | none => b

def truthyStr (a : Option String) : Option String :=
  match a with
  | some "" => none
  | x => x

/-- Model of `s.replace(/^@/, '')`. -/
def stripLeadingAt (s : String) : String :=
  match s.data with
  | '@' :: rest => String.mk rest
  | _ => s

structure ExtractedInfo where
  title : Option String
  description : Option String
  caption : Option String
  username : Option String
  authorUrl : Option String
  videoSrc : Option String
  url : String
  comments : List ScrapedComment
deriving DecidableEq

/-- The pure field-resolution core of `extractFromPage`, given the page
URL, the oEmbed response (`none` when the fetch failed), the
DOM-evaluated data and the harvested comments. -/
def extractFromPage (currentUrl : String) (oembed : Option OEmbedData)
    (dom : DomData) (comments : List ScrapedComment) : ExtractedInfo :=
  let normalized := normalizeVideoUrl currentUrl
  let urlUser := usernameFromUrl currentUrl
  let caption := orNullish (oembed.bind (fun o => o.title)) (orNullish dom.caption dom.metaDesc)
  let username :=
    orNullish ((truthyStr (oembed.bind (fun o => o.author_name))).map stripLeadingAt)
      (orNullish urlUser ((truthyStr dom.username).map stripLeadingAt))
  let authorUrl :=
    orNullish (oembed.bind (fun o => o.author_url))
      (orNullish (username.map (fun u => "https://www.tiktok.com/@" ++ u)) dom.authorUrl)
  let title := orNullish dom.ogTitle (orNullish caption (some (normalized.getD currentUrl)))
  { title := title
    description := caption
    caption := caption
    username := username
    authorUrl := authorUrl
    videoSrc := dom.videoSrc
    url := normalized.getD dom.url
    comments := comments }

/-! ## Scrape orchestration (`scrapeFromSearch`, `scrapeAnnotateAndCache`)

The browser traversal inside `scrapeFromSearch` is abstracted as an
oracle mapping the built search URL and target count to the sequence of
per-video extraction results and the run metrics (or a thrown error,
e.g. `openFirstVideoFromSearch` failing to find a video link). What the
source does with those results — building the `items` array without a
`keywordMentioned` field, caching, annotating, filtering — is
translated directly. -/

abbrev Oracle := String → Nat → Except String (List ExtractedInfo × ScrapeRunMetrics)

/-- Model of `items.push({url, title, description, caption, username, authorUrl,
videoSrc, comments})` — note: no `keywordMentioned` field. -/
def mkRawItem (info : ExtractedInfo) : ScrapedItem :=
  { url := info.url
    title := info.title
    description := info.description
    caption := info.caption
    username := info.username
    authorUrl := info.authorUrl
    videoSrc := info.videoSrc
    comments := some info.comments
    keywordMentioned := none }

/-- Model of `scrapeFromSearch`: build the search URL (throwing on invalid input),
run the traversal, collect up to `maxCount` raw items. -/
def scrapeFromSearch (oracle : Oracle) (search : String) (maxCount : Nat) :
    Except String (List ScrapedItem × ScrapeRunMetrics) :=
  match buildSearchUrl search with
  | .error e => .error e
  | .ok url =>
    match oracle url maxCount with
    | .error e => .error e
    | .ok (infos, metrics) => .ok ((infos.take maxCount).map mkRawItem, metrics)

/-- The `{ key, items, metrics, fromCache }` return value. -/
structure ResultView where
  key : String
  items : List ScrapedItem
  metrics : ScrapeRunMetrics
  fromCache : Bool
deriving DecidableEq

/-- Model of `scrapeAnnotateAndCache`: LRU lookup (skipped under `forceRefresh`),
scrape-and-cache on miss, then annotate and optionally filter. Returns
the response (or propagated error) together with the final cache state. -/
def scrapeAnnotateAndCache (oracle : Oracle) (ttl maxEntries now : Nat) (c : Cache)
    (search keyword : String) (maxCount : Nat)
    (showVideoOnlyWithMatchKeyword forceRefresh : Bool) :
    Except String ResultView × Cache :=
  let rawKey := lruKeyRaw search maxCount
  let hitAndCache := if forceRefresh then (none, c) else lruGet ttl now c rawKey
  match hitAndCache with
  | (some raw, c1) =>
    let annotated := annotateItems raw.items keyword
    let items := if showVideoOnlyWithMatchKeyword then filterMatched annotated else annotated
    (.ok ⟨rawKey, items, raw.metrics, true⟩, c1)
  | (none, c1) =>
    match scrapeFromSearch oracle search maxCount with
    | .error e => (.error e, c1)
    | .ok (rawItems, metrics) =>
      let c2 := lruSet maxEntries now c1 rawKey rawItems metrics
      let annotated := annotateItems rawItems keyword
      let items := if showVideoOnlyWithMatchKeyword then filterMatched annotated else annotated
      (.ok ⟨rawKey, items, metrics, false⟩, c2)

/-! ## Navigator (`goToNextVideo`)

The page is modelled as a function from the millisecond clock to the
three navigation signals the source reads: the URL, the resolved media
source (`video.currentSrc`, nullable/empty) and the caption text
(`''` when absent). Time advances exactly by the source's `sleep`
calls: 200 ms per poll iteration, 300 ms after the initial corrective
`Enter`, 500 ms after the post-move corrective `Enter`. Input
simulation itself (key presses, clicks, wheel) is instantaneous in the
model. The poll loop carries fuel (any `fuel ≥ ⌈2500/200⌉` gives the
loop's exact behaviour, since the deadline guard exits first). -/

structure PageView where
  url : String
  videoSrc : Option String
  caption : String
deriving DecidableEq

/-- The `hasChanged` closure: URL differs, or both media sources are
truthy and differ, or the caption is truthy and differs. -/
def hasChangedAt (page : Nat → PageView) (beforeUrl : String) (beforeSrc : Option String)
    (beforeCaption : String) (t : Nat) : Bool :=
  ((page t).url != beforeUrl) ||
  (match truthyStr beforeSrc, truthyStr (page t).videoSrc with
   | some b, some cur => cur != b
   | _, _ => false) ||
  (((page t).caption != "") && ((page t).caption != beforeCaption))

/-- Poll loop `while (Date.now() < localDeadline) x7b if (await hasChanged()) ...; await sleep(200) x7d`. -/
def pollLoop (changed : Nat → Bool) : Nat → Nat → Nat → Bool × Nat
  | 0, now, _ => (false, now)
  | fuel + 1, now, localDeadline =>
    if now < localDeadline then
      if changed now then (true, now)
      else pollLoop changed fuel (now + 200) localDeadline
    else (false, now)

/-- One rung of the action ladder per iteration: bump `attempts`,
simulate the input, poll a 2500 ms window, and on failure either break
past the overall deadline or fall through to the next rung. On success,
apply the corrective `Enter` + 500 ms sleep when the URL does not look
like a video page. -/
def ladder (page : Nat → PageView) (changed : Nat → Bool) (deadline : Nat) :
    Nat → Nat → Nat → Bool × Nat × Nat
  | 0, attempts, now => (false, attempts, now)
  | rungs + 1, attempts, now =>
    let attempts1 := attempts + 1
    match pollLoop changed 13 now (now + 2500) with
    | (true, n2) =>
      if hasSub "/video/".data (page n2).url.data then (true, attempts1, n2)
      else (true, attempts1 + 1, n2 + 500)
    | (false, n2) =>
      if deadline ≤ n2 then (false, attempts1, n2)
      else ladder page changed deadline rungs attempts1 n2

/-- Model of `goToNextVideo(page, timeoutMs)` starting at clock `t0`:
initial corrective `Enter` (+300 ms) when not on a video URL, snapshot
the three signals, then run the six-rung ladder against
`deadline = now + timeoutMs`. Returns `{moved, attempts, tookMs}`. -/
def goToNextVideo (page : Nat → PageView) (timeoutMs : Nat) (t0 : Nat) :
    Bool × Nat × Nat :=
  let pre : Nat × Nat :=
    if hasSub "/video/".data (page t0).url.data then (0, t0) else (1, t0 + 300)
  let attempts0 := pre.1
  let t1 := pre.2
  let before := page t1
  let changed := hasChangedAt page before.url before.videoSrc before.caption
  let r := ladder page changed (t1 + timeoutMs) 6 attempts0 t1
  (r.1, r.2.1, r.2.2 - t0)

/-! ## Sample values used by witnesses -/

def sampleMetrics : ScrapeRunMetrics :=
  { runId := "r"
    mode := "search"
    queryOrStartUrl := "q"
    headless := true
    startedAt := "s"
    endedAt := "e"
    durationMs := 0
    videosTargeted := 0
    videosScraped := 0
    navFailures := 0
    captchas := 0
    totalComments := 0
    perVideo := [] }

def sampleEntry : CacheEntry := { items := [], metrics := sampleMetrics, createdAt := 0 }

def sampleCache : Cache := [("k", sampleEntry)]

def sampleOracle : Oracle := fun _ _ => .error "no browser"

def sampleItemCafe : ScrapedItem :=
  { url := "u"
    title := none
    description := some "je bois du café"
    caption := none
    username := none
    authorUrl := none
    videoSrc := none
    comments := some []
    keywordMentioned := none }

/-! ## Helper lemmas -/

theorem data_eq_nil_iff (s : String) : s.data = [] ↔ s = "" := by
  constructor
  · intro h
    cases s with
    | mk l =>
      have h' : l = [] := h
      subst h'
      rfl
  · intro h
    rw [h]

/-- Lemma: `contains` unfolded to the propositional substring relation. -/
theorem contains_iff (h n : Option String) :
    contains h n = true ↔ norm n ≠ "" ∧ SubstringOf (norm n).data (norm h).data := by
  simp only [contains, Bool.and_eq_true, Bool.not_eq_true', ← hasSub_iff,
    List.isEmpty_eq_false, ne_eq, data_eq_nil_iff]

/-- The per-item annotation flag, unfolded. -/
theorem mentionedIn_iff (v : ScrapedItem) (kw : String) :
    mentionedIn v kw = true ↔
      (norm (some kw) ≠ "" ∧
        (SubstringOf (norm (some kw)).data (norm v.description).data ∨
          ∃ c ∈ v.comments.getD [],
            SubstringOf (norm (some kw)).data (norm (some c.text)).data)) := by
  simp only [mentionedIn, Bool.or_eq_true, List.any_eq_true, contains_iff]
  constructor
  · rintro (⟨hne, hsub⟩ | ⟨c, hc, hne, hsub⟩)
    · exact ⟨hne, Or.inl hsub⟩
    · exact ⟨hne, Or.inr ⟨c, hc, hsub⟩⟩
  · rintro ⟨hne, hsub | ⟨c, hc, hsub⟩⟩
    · exact Or.inl ⟨hne, hsub⟩
    · exact Or.inr ⟨c, hc, hne, hsub⟩

/-- C1: for every item list and keyword, annotation sets `keywordMentioned`
to `true` iff the keyword occurs — as a diacritic- and case-insensitive
normalized substring — in the item's description or in some comment's
text; and the matcher accepts `("café", "cafe")` and `("CAFE", "cafe")`. -/
theorem annotate_keywordMentioned_iff (items : List ScrapedItem) (kw : String)
    (i : Nat) (h : i < items.length) :
    (((annotateItems items kw).get ⟨i, by simpa [annotateItems] using h⟩).keywordMentioned
        = some true ↔
      (norm (some kw) ≠ "" ∧
        (SubstringOf (norm (some kw)).data (norm (items.get ⟨i, h⟩).description).data ∨
          ∃ c ∈ (items.get ⟨i, h⟩).comments.getD [],
            SubstringOf (norm (some kw)).data (norm (some c.text)).data)))
    ∧ contains (some "café") (some "cafe") = true
    ∧ contains (some "CAFE") (some "cafe") = true := by
  refine ⟨?_, by decide, by decide⟩
  have hget : (annotateItems items kw).get ⟨i, by simpa [annotateItems] using h⟩
      = annotateItem (items.get ⟨i, h⟩) kw := by
    simp [annotateItems, List.get_eq_getElem]
  rw [hget]
  simp only [annotateItem, Option.some.injEq]
  exact mentionedIn_iff (items.get ⟨i, h⟩) kw

/-- Witness for C1 at a concrete item list and index. -/
theorem annotate_keywordMentioned_iff_witness :
    (0 : Nat) < [sampleItemCafe].length
    ∧ ((((annotateItems [sampleItemCafe] "cafe").get
          ⟨0, by simp [annotateItems]⟩).keywordMentioned = some true ↔
      (norm (some "cafe") ≠ "" ∧
        (SubstringOf (norm (some "cafe")).data
            (norm (([sampleItemCafe] : List ScrapedItem).get ⟨0, by simp⟩).description).data ∨
          ∃ c ∈ (([sampleItemCafe] : List ScrapedItem).get ⟨0, by simp⟩).comments.getD [],
            SubstringOf (norm (some "cafe")).data (norm (some c.text)).data)))
      ∧ contains (some "café") (some "cafe") = true
      ∧ contains (some "CAFE") (some "cafe") = true) :=
  ⟨by decide, annotate_keywordMentioned_iff [sampleItemCafe] "cafe" 0 (by decide)⟩

/-- Items of a successful response (`[]` for an error). -/
def okItems : Except String ResultView → List ScrapedItem
  | .ok r => r.items
  | .error _ => []

theorem annotateItems_empty_kw (items : List ScrapedItem) :
    annotateItems items "" =
      items.map (fun v => { v with keywordMentioned := some false }) := by
  unfold annotateItems
  apply List.map_congr_left
  intro v _
  have : mentionedIn v "" = false := by
    simp [mentionedIn, contains, norm]
  simp [annotateItem, this]

theorem filterMatched_annotate_empty (items : List ScrapedItem) :
    filterMatched (annotateItems items "") = [] := by
  rw [annotateItems_empty_kw, filterMatched, List.filter_map]
  simp [Function.comp_def]

/-- C10: with an empty (or absent) keyword the matcher rejects everything
— `contains` is `false` whenever the normalized needle is empty — so
annotation marks every item `keywordMentioned = false`, and a request
with an empty keyword and `showVideoOnlyWithMatchKeyword = true` yields
an empty item list. -/
theorem empty_keyword_rejects_all :
    (∀ h : Option String, contains h (some "") = false ∧ contains h none = false)
    ∧ (∀ items : List ScrapedItem,
        annotateItems items "" =
          items.map (fun v => { v with keywordMentioned := some false }))
    ∧ (∀ (oracle : Oracle) (ttl maxEntries now : Nat) (c : Cache)
        (search : String) (maxCount : Nat) (fr : Bool),
        okItems (scrapeAnnotateAndCache oracle ttl maxEntries now c
          search "" maxCount true fr).1 = []) := by
  refine ⟨fun h => ⟨by simp [contains, norm], by simp [contains, norm]⟩,
    annotateItems_empty_kw, ?_⟩
  intro oracle ttl maxEntries now c search maxCount fr
  unfold scrapeAnnotateAndCache
  rcases hits : (if fr then (none, c) else lruGet ttl now c (lruKeyRaw search maxCount)) with
    ⟨hit, c1⟩
  cases hit with
  | some raw => simp [hits, okItems, filterMatched_annotate_empty]
  | none =>
    cases hscr : scrapeFromSearch oracle search maxCount with
    | error e => simp [hits, hscr, okItems]
    | ok pr => simp [hits, hscr, okItems, filterMatched_annotate_empty]

/-- A cache state that stores only raw scrape output: no stored item has
its `keywordMentioned` flag set. -/
def rawCache (c : Cache) : Prop :=
  ∀ p ∈ c, ∀ it ∈ p.2.items, it.keywordMentioned = none

theorem mem_eraseKey {c : Cache} {k : String} {p : String × CacheEntry}
    (h : p ∈ eraseKey c k) : p ∈ c :=
  List.mem_of_mem_filter h

theorem mem_evictLru {maxEntries : Nat} {c : Cache} {p : String × CacheEntry}
    (h : p ∈ evictLru maxEntries c) : p ∈ c := by
  induction c with
  | nil => rw [evictLru] at h; exact h
  | cons e rest ih =>
    rw [evictLru] at h
    by_cases hc : maxEntries < (e :: rest).length
    · rw [if_pos hc] at h
      exact List.mem_cons_of_mem e (ih h)
    · rw [if_neg hc] at h
      exact h

theorem mem_lruGet_snd {ttl now : Nat} {c : Cache} {k : String} {p : String × CacheEntry}
    (h : p ∈ (lruGet ttl now c k).2) : p ∈ c := by
  unfold lruGet at h
  cases hl : lookup c k with
  | none => rw [hl] at h; exact h
  | some hit =>
    rw [hl] at h
    dsimp only at h
    have hmem : (k, hit) ∈ c := by
      unfold lookup at hl
      cases hf : c.find? (fun p => p.1 == k) with
      | none => rw [hf] at hl; simp at hl
      | some q =>
        rw [hf] at hl
        have hq : q ∈ c := List.mem_of_find?_eq_some hf
        have hk : q.1 = k := by
          have := List.find?_some hf
          simpa using this
        have hv : q.2 = hit := by simpa using hl
        rw [← hk, ← hv]
        exact hq
    by_cases httl : 0 < ttl ∧ ttl < now - hit.createdAt
    · rw [if_pos httl] at h
      exact mem_eraseKey h
    · rw [if_neg httl] at h
      rcases List.mem_append.mp h with h1 | h1
      · exact mem_eraseKey h1
      · have : p = (k, hit) := by simpa using h1
        rw [this]; exact hmem

theorem mem_lruSet {maxEntries now : Nat} {c : Cache} {k : String}
    {items : List ScrapedItem} {metrics : ScrapeRunMetrics} {p : String × CacheEntry}
    (h : p ∈ lruSet maxEntries now c k items metrics) :
    p ∈ c ∨ p.2.items = items := by
  unfold lruSet at h
  rcases List.mem_append.mp (mem_evictLru h) with h1 | h1
  · exact Or.inl (mem_eraseKey h1)
  · have : p = (k, ⟨items, metrics, now⟩) := by simpa using h1
    rw [this]
    exact Or.inr rfl

theorem annotateItem_annotateItem (v : ScrapedItem) (kw1 kw2 : String) :
    annotateItem (annotateItem v kw1) kw2 = annotateItem v kw2 := by
  cases v
  rfl

/-- C2: annotation is pure and idempotent across keywords —
re-annotating an annotated list with a new keyword equals annotating the
raw list — and `scrapeAnnotateAndCache` never persists an annotated item
into the cache: it preserves the raw-only cache invariant. -/
theorem annotate_pure_cache_raw :
    (∀ (items : List ScrapedItem) (kw1 kw2 : String),
      annotateItems (annotateItems items kw1) kw2 = annotateItems items kw2)
    ∧ (∀ (oracle : Oracle) (ttl maxEntries now : Nat) (c : Cache)
        (search keyword : String) (maxCount : Nat) (so fr : Bool),
        rawCache c →
        rawCache (scrapeAnnotateAndCache oracle ttl maxEntries now c
          search keyword maxCount so fr).2) := by
  constructor
  · intro items kw1 kw2
    unfold annotateItems
    rw [List.map_map]
    exact List.map_congr_left (fun v _ => annotateItem_annotateItem v kw1 kw2)
  · intro oracle ttl maxEntries now c search keyword maxCount so fr hraw
    unfold scrapeAnnotateAndCache
    rcases hits : (if fr then (none, c) else lruGet ttl now c (lruKeyRaw search maxCount)) with
      ⟨hit, c1⟩
    have hc1 : ∀ p ∈ c1, p ∈ c := by
      intro p hp
      by_cases hfr : fr
      · rw [if_pos hfr] at hits
        cases hits
        exact hp
      · rw [if_neg hfr] at hits
        have : c1 = (lruGet ttl now c (lruKeyRaw search maxCount)).2 := by
          rw [hits]
        exact mem_lruGet_snd (this ▸ hp)
    cases hit with
    | some raw =>
      simp only [hits]
      intro p hp
      exact hraw p (hc1 p hp)
    | none =>
      cases hscr : scrapeFromSearch oracle search maxCount with
      | error e =>
        simp only [hits, hscr]
        intro p hp
        exact hraw p (hc1 p hp)
      | ok pr =>
        simp only [hits, hscr]
        intro p hp
        rcases mem_lruSet hp with h1 | h1
        · exact hraw p (hc1 p h1)
        · intro it hmem
          rw [h1] at hmem
          -- every item produced by `scrapeFromSearch` is a raw `mkRawItem`
          have hr : ∀ q ∈ pr.1, q.keywordMentioned = none := by
            unfold scrapeFromSearch at hscr
            cases hb : buildSearchUrl search with
            | error e2 => rw [hb] at hscr; simp at hscr
            | ok url =>
              rw [hb] at hscr
              dsimp only at hscr
              cases ho : oracle url maxCount with
              | error e2 => rw [ho] at hscr; simp at hscr
              | ok infos =>
                rw [ho] at hscr
                obtain ⟨infoList, met⟩ := infos
                dsimp only at hscr
                have hpr : pr.1 = (infoList.take maxCount).map mkRawItem := by
                  simp only [Except.ok.injEq] at hscr
                  rw [← hscr]
                intro q hq
                rw [hpr] at hq
                rcases List.mem_map.mp hq with ⟨info, _, rfl⟩
                rfl
          exact hr it hmem

/-- Witness for C2's cache-invariant component at a concrete raw cache. -/
theorem annotate_pure_cache_raw_witness :
    rawCache sampleCache ∧
      rawCache (scrapeAnnotateAndCache sampleOracle 0 200 0 sampleCache
        "query" "kw" 5 false false).2 :=
  ⟨by simp [rawCache, sampleCache, sampleEntry],
    annotate_pure_cache_raw.2 sampleOracle 0 200 0 sampleCache "query" "kw" 5 false false
      (by simp [rawCache, sampleCache, sampleEntry])⟩

theorem lookup_eraseKey_self (c : Cache) (k : String) :
    lookup (eraseKey c k) k = none := by
  induction c with
  | nil => rfl
  | cons e rest ih =>
    unfold eraseKey at ih ⊢
    by_cases hk : e.1 = k
    · simp [List.filter, hk, ih]
    · simp only [List.filter]
      rw [show (e.1 != k) = true by simpa using hk]
      unfold lookup at ih ⊢
      simp only [List.find?]
      rw [show (e.1 == k) = false by simpa using hk]
      exact ih

/-- C3: TTL semantics of `lruGet` — with TTL `T > 0` an entry created at
`t0` is returned at `t0+T-1` but expired at `t0+T+1` (deleted from the
cache and `null` returned); a get on an absent key returns `null` and
leaves the cache unchanged; with TTL `0`, entries never expire. -/
theorem lruGet_ttl_semantics (T t0 : Nat) (hT : 0 < T) (c : Cache) (k : String)
    (e : CacheEntry) (hl : lookup c k = some e) (hage : e.createdAt = t0) :
    ((lruGet T (t0 + T - 1) c k).1 = some e
      ∧ (lruGet T (t0 + T + 1) c k).1 = none
      ∧ lookup (lruGet T (t0 + T + 1) c k).2 k = none)
    ∧ (∀ (c2 : Cache) (k2 : String) (now : Nat),
        lookup c2 k2 = none → lruGet T now c2 k2 = (none, c2))
    ∧ (∀ (c2 : Cache) (k2 : String) (e2 : CacheEntry) (now : Nat),
        lookup c2 k2 = some e2 → (lruGet 0 now c2 k2).1 = some e2) := by
  refine ⟨⟨?_, ?_, ?_⟩, ?_, ?_⟩
  · unfold lruGet
    rw [hl]
    dsimp only
    rw [if_neg (by omega)]
  · unfold lruGet
    rw [hl]
    dsimp only
    rw [if_pos (by constructor <;> omega)]
  · unfold lruGet
    rw [hl]
    dsimp only
    rw [if_pos (by constructor <;> omega)]
    exact lookup_eraseKey_self c k
  · intro c2 k2 now hnone
    unfold lruGet
    rw [hnone]
  · intro c2 k2 e2 now hsome
    unfold lruGet
    rw [hsome]
    dsimp only
    rw [if_neg (by omega)]

/-- Witness for C3 with TTL 3, an entry created at 0, gets at 2 and 4. -/
theorem lruGet_ttl_semantics_witness :
    (0 < 3 ∧ lookup sampleCache "k" = some sampleEntry ∧ sampleEntry.createdAt = 0)
    ∧ ((lruGet 3 (0 + 3 - 1) sampleCache "k").1 = some sampleEntry
      ∧ (lruGet 3 (0 + 3 + 1) sampleCache "k").1 = none
      ∧ lookup (lruGet 3 (0 + 3 + 1) sampleCache "k").2 "k" = none)
    ∧ lruGet 3 9 [] "absent" = (none, [])
    ∧ (lruGet 0 999 sampleCache "k").1 = some sampleEntry := by
  have h := lruGet_ttl_semantics 3 0 (by decide) sampleCache "k" sampleEntry rfl rfl
  exact ⟨⟨by decide, rfl, rfl⟩, h.1,
    h.2.1 [] "absent" 9 rfl,
    h.2.2 sampleCache "k" sampleEntry 999 rfl⟩

/-- C4: LRU recency — with capacity 2 (and no TTL), after
`set A; set B; get A; set C`, entry `B` has been evicted while `A` and
`C` are still retrievable. -/
theorem lru_recency_eviction :
    (lookup (lruSet 2 3 (lruGet 0 2 (lruSet 2 1 (lruSet 2 0 [] "A" [] sampleMetrics)
        "B" [] sampleMetrics) "A").2 "C" [] sampleMetrics) "B" = none)
    ∧ ((lruGet 0 4 (lruSet 2 3 (lruGet 0 2 (lruSet 2 1 (lruSet 2 0 [] "A" [] sampleMetrics)
        "B" [] sampleMetrics) "A").2 "C" [] sampleMetrics) "A").1.isSome = true)
    ∧ ((lruGet 0 4 (lruSet 2 3 (lruGet 0 2 (lruSet 2 1 (lruSet 2 0 [] "A" [] sampleMetrics)
        "B" [] sampleMetrics) "A").2 "C" [] sampleMetrics) "C").1.isSome = true) := by
  refine ⟨rfl, rfl, rfl⟩

/-- C5: cache keys — `lruKeyRaw` trims and lowercases the search text,
so `key(" Foo ", n) = key("foo", n)` for every `n`, and appends the
decimal `maxCount`, so keys with different `maxCount` differ. -/
theorem lruKeyRaw_normalization (n : Nat) (s : String) (m1 m2 : Nat) (hm : m1 ≠ m2) :
    lruKeyRaw " Foo " n = lruKeyRaw "foo" n ∧ lruKeyRaw s m1 ≠ lruKeyRaw s m2 := by
  constructor
  · unfold lruKeyRaw
    have : jsToLowerStr (jsTrim " Foo ") = jsToLowerStr (jsTrim "foo") := by decide
    rw [this]
  · intro hkey
    apply hm
    unfold lruKeyRaw at hkey
    have hdata := congrArg String.data hkey
    simp only [String.data_append] at hdata
    have h2 := List.append_cancel_left hdata
    have h3 : natToStr m1 = natToStr m2 := by
      have := congrArg String.mk h2
      simpa using this
    exact natToStr_injective h3

/-- Witness for C5 at `n = 5`, `s = "x"`, `m1 = 3`, `m2 = 5`. -/
theorem lruKeyRaw_normalization_witness :
    (3 ≠ 5) ∧ lruKeyRaw " Foo " 5 = lruKeyRaw "foo" 5 ∧ lruKeyRaw "x" 3 ≠ lruKeyRaw "x" 5 :=
  ⟨by decide, lruKeyRaw_normalization 5 "x" 3 5 (by decide)⟩

theorem extractLoop_text_ne (limit : Nat) (nodes : List CommentNode)
    (acc : List ScrapedComment) (hacc : ∀ c ∈ acc, c.text ≠ "") :
    ∀ c ∈ extractLoop limit nodes acc, c.text ≠ "" := by
  induction nodes generalizing acc with
  | nil => simpa [extractLoop] using hacc
  | cons t rest ih =>
    rw [extractLoop]
    by_cases ht : collapseWs t.rawText = ""
    · rw [if_pos ht]
      exact ih acc hacc
    · rw [if_neg ht]
      have hacc2 : ∀ c ∈ acc ++ [mkComment t (collapseWs t.rawText)], c.text ≠ "" := by
        intro c hc
        rcases List.mem_append.mp hc with h1 | h1
        · exact hacc c h1
        · have : c = mkComment t (collapseWs t.rawText) := by simpa using h1
          rw [this]
          exact ht
      dsimp only
      by_cases hfull : limit ≤ (acc ++ [mkComment t (collapseWs t.rawText)]).length
      · rw [if_pos hfull]
        exact hacc2
      · rw [if_neg hfull]
        exact ih _ hacc2

theorem extractLoop_texts_sublist (limit : Nat) (nodes : List CommentNode)
    (acc : List ScrapedComment) :
    ∃ l, extractLoop limit nodes acc = acc ++ l ∧
      List.Sublist (l.map (fun c => c.text)) (nodes.map (fun t => collapseWs t.rawText)) := by
  induction nodes generalizing acc with
  | nil => exact ⟨[], by simp [extractLoop]⟩
  | cons t rest ih =>
    rw [extractLoop]
    by_cases ht : collapseWs t.rawText = ""
    · rw [if_pos ht]
      obtain ⟨l, hl, hs⟩ := ih acc
      exact ⟨l, hl, by simpa using List.Sublist.cons _ hs⟩
    · rw [if_neg ht]
      dsimp only
      by_cases hfull : limit ≤ (acc ++ [mkComment t (collapseWs t.rawText)]).length
      · rw [if_pos hfull]
        refine ⟨[mkComment t (collapseWs t.rawText)], rfl, ?_⟩
        simp only [List.map_cons, List.map_nil, mkComment]
        exact List.Sublist.cons₂ _ (List.nil_sublist _)
      · rw [if_neg hfull]
        obtain ⟨l, hl, hs⟩ := ih (acc ++ [mkComment t (collapseWs t.rawText)])
        refine ⟨mkComment t (collapseWs t.rawText) :: l, by simpa using hl, ?_⟩
        simp only [List.map_cons, mkComment]
        exact List.Sublist.cons₂ _ hs

/-- C6: the comment-extraction pass returns at most `limit` comments,
every returned comment has non-empty whitespace-collapsed text
(empty-text nodes are discarded), and the returned texts appear in
page order (a sublist of the nodes' collapsed texts). The scroll phase
only determines which nodes are rendered, so the result is quantified
over every final node list; the hard timeout bounds that phase and does
not affect the extraction pass. -/
theorem extractComments_bounds (nodes : List CommentNode) (limit : Nat) :
    (extractComments nodes limit).length ≤ limit
    ∧ (∀ c ∈ extractComments nodes limit, c.text ≠ "")
    ∧ List.Sublist ((extractComments nodes limit).map (fun c => c.text))
        (nodes.map (fun t => collapseWs t.rawText)) := by
  refine ⟨List.length_take_le limit _, ?_, ?_⟩
  · intro c hc
    exact extractLoop_text_ne limit nodes [] (by simp) c
      (List.take_subset limit _ hc)
  · obtain ⟨l, hl, hs⟩ := extractLoop_texts_sublist limit nodes []
    have h1 : List.Sublist ((extractComments nodes limit).map (fun c => c.text))
        ((extractLoop limit nodes []).map (fun c => c.text)) :=
      List.Sublist.map _ (List.take_sublist _ _)
    have h2 : (extractLoop limit nodes []).map (fun c => c.text)
        = l.map (fun c => c.text) := by rw [hl]; simp
    rw [h2] at h1
    exact h1.trans hs

/-- C9: `extractFromPage` resolves `caption` as the first present value
of (resolver title, in-page caption, in-page meta description) and
`username` as the first present value of (resolver author name with a
leading `@` stripped, URL-path-derived handle, in-page author link
text, also `@`-stripped); each field is `null` exactly when every
source in its chain has no data (for `username`, JS truthiness also
discards empty-string sources). -/
theorem extract_field_precedence (currentUrl : String) (oembed : Option OEmbedData)
    (dom : DomData) (comments : List ScrapedComment) :
    ((extractFromPage currentUrl oembed dom comments).caption =
      (match oembed.bind (fun o => o.title) with
       | some t => some t
       | none =>
         match dom.caption with
         | some cap => some cap
         | none => dom.metaDesc))
    ∧ ((extractFromPage currentUrl oembed dom comments).caption = none ↔
        oembed.bind (fun o => o.title) = none ∧ dom.caption = none ∧ dom.metaDesc = none)
    ∧ ((extractFromPage currentUrl oembed dom comments).username =
      (match truthyStr (oembed.bind (fun o => o.author_name)) with
       | some a => some (stripLeadingAt a)
       | none =>
         match usernameFromUrl currentUrl with
         | some u => some u
         | none => (truthyStr dom.username).map stripLeadingAt))
    ∧ ((extractFromPage currentUrl oembed dom comments).username = none ↔
        truthyStr (oembed.bind (fun o => o.author_name)) = none
        ∧ usernameFromUrl currentUrl = none
        ∧ truthyStr dom.username = none) := by
  refine ⟨?_, ?_, ?_, ?_⟩
  · cases ht : oembed.bind (fun o => o.title) <;>
      cases hc : dom.caption <;>
        simp [extractFromPage, orNullish, ht, hc]
  · cases ht : oembed.bind (fun o => o.title) <;>
      cases hc : dom.caption <;>
        cases hm : dom.metaDesc <;>
          simp [extractFromPage, orNullish, ht, hc, hm]
  · cases ha : truthyStr (oembed.bind (fun o => o.author_name)) <;>
      cases hu : usernameFromUrl currentUrl <;>
        simp [extractFromPage, orNullish, ha, hu]
  · cases ha : truthyStr (oembed.bind (fun o => o.author_name)) <;>
      cases hu : usernameFromUrl currentUrl <;>
        cases hd : truthyStr dom.username <;>
          simp [extractFromPage, orNullish, ha, hu, hd]

theorem dropWhile_eq_nil_of_all {p : Char → Bool} {l : List Char}
    (h : ∀ c ∈ l, p c = true) : l.dropWhile p = [] := by
  induction l with
  | nil => rfl
  | cons c rest ih =>
    rw [List.dropWhile_cons, if_pos (h c (by simp))]
    exact ih fun x hx => h x (by simp [hx])

theorem jsTrim_of_all_ws {s : String} (h : ∀ c ∈ s.data, isJsWhitespace c = true) :
    jsTrim s = "" := by
  unfold jsTrim
  rw [dropWhile_eq_nil_of_all h]
  rfl

/-- Oracle standing for a browser run that succeeds with no videos. -/
def okOracle : Oracle := fun _ _ => .ok ([], sampleMetrics)

/-- C8 counterexample: the host of `https://xtiktok.com/` is
`xtiktok.com`, which is not the target domain, yet the source's check
is `url.hostname.includes('tiktok.com')` — substring containment — so
the input is accepted: `buildSearchUrl` does not throw, and
`scrapeAnnotateAndCache` starts a scrape run, returns a successful
result and writes a new entry into the (initially empty) cache. -/
theorem nontarget_host_accepted :
    hostOf (jsTrim "https://xtiktok.com/") = some "xtiktok.com"
    ∧ "xtiktok.com" ≠ "tiktok.com"
    ∧ buildSearchUrl "https://xtiktok.com/" = .ok "https://www.tiktok.com/search?q="
    ∧ scrapeAnnotateAndCache okOracle 0 200 0 [] "https://xtiktok.com/" "kw" 5 false false
        = (.ok ⟨"https://xtiktok.com/+5", [], sampleMetrics, false⟩,
           [("https://xtiktok.com/+5", ⟨[], sampleMetrics, 0⟩)]) :=
  ⟨rfl, by decide, rfl, rfl⟩

/-- C8 (amended): an empty or whitespace-only search, or an http(s) URL
whose host does not contain `tiktok.com` as a substring (the source's
`includes` test, which also admits non-target hosts such as
`xtiktok.com` — see the counterexample above), makes `buildSearchUrl`
throw; the error propagates out of `scrapeAnnotateAndCache` as a hard
failure (no `ok` result) and the cache is left exactly as it was. (The
absent-key hypothesis holds in every reachable state: an entry under
such a key could only have been written by a successful scrape of the
same invalid input, which always throws first.) -/
theorem invalid_input_rejected (oracle : Oracle) (ttl maxEntries now : Nat) (c : Cache)
    (search keyword : String) (maxCount : Nat) (so fr : Bool)
    (hinv : (∀ ch ∈ search.data, isJsWhitespace ch = true)
      ∨ (isHttpUrl (jsTrim search) = true ∧
          ∃ h, hostOf (jsTrim search) = some h ∧ ¬ SubstringOf "tiktok.com".data h.data))
    (habsent : lookup c (lruKeyRaw search maxCount) = none) :
    (∃ msg, buildSearchUrl search = .error msg)
    ∧ (∃ msg, scrapeAnnotateAndCache oracle ttl maxEntries now c
        search keyword maxCount so fr = (.error msg, c)) := by
  have hb : ∃ msg, buildSearchUrl search = .error msg := by
    rcases hinv with hws | ⟨hhttp, h, hhost, hns⟩
    · refine ⟨"Empty search query", ?_⟩
      unfold buildSearchUrl
      rw [jsTrim_of_all_ws hws]
      rfl
    · refine ⟨"Not a TikTok URL", ?_⟩
      have hne : jsTrim search ≠ "" := by
        intro he
        rw [he] at hhttp
        exact absurd hhttp (by decide)
      obtain ⟨u, hu, huh⟩ := Option.map_eq_some'.mp hhost
      have hfalse : hasSub "tiktok.com".data u.hostname.data = false := by
        rw [← Bool.not_eq_true, hasSub_iff]
        rw [huh]
        exact hns
      unfold buildSearchUrl
      rw [if_neg hne, if_pos hhttp, hu]
      dsimp only
      rw [if_neg (by rw [hfalse]; exact Bool.false_ne_true)]
  obtain ⟨msg, hmsg⟩ := hb
  refine ⟨⟨msg, hmsg⟩, ⟨msg, ?_⟩⟩
  unfold scrapeAnnotateAndCache
  have hget : (if fr then ((none : Option CacheEntry), c)
      else lruGet ttl now c (lruKeyRaw search maxCount)) = (none, c) := by
    by_cases hfr : fr
    · rw [if_pos hfr]
    · rw [if_neg hfr]
      unfold lruGet
      rw [habsent]
  dsimp only
  rw [hget]
  dsimp only
  unfold scrapeFromSearch
  rw [hmsg]

/-- Witness for C8 at a whitespace-only search against an empty cache. -/
theorem invalid_input_rejected_witness :
    ((∀ ch ∈ ("  " : String).data, isJsWhitespace ch = true)
      ∧ lookup [] (lruKeyRaw "  " 5) = none)
    ∧ (∃ msg, buildSearchUrl "  " = .error msg)
    ∧ (∃ msg, scrapeAnnotateAndCache sampleOracle 0 200 0 [] "  " "kw" 5 false false
        = (.error msg, [])) :=
  ⟨⟨by decide, rfl⟩,
    invalid_input_rejected sampleOracle 0 200 0 [] "  " "kw" 5 false false
      (Or.inl (by decide)) rfl⟩

theorem hasChangedAt_const (v : PageView) (t : Nat) :
    hasChangedAt (fun _ => v) v.url v.videoSrc v.caption t = false := by
  unfold hasChangedAt
  cases truthyStr v.videoSrc <;> simp

theorem pollLoop_never (changed : Nat → Bool) (hch : ∀ t, changed t = false) :
    ∀ (fuel now ld : Nat), now < ld + 200 →
      (pollLoop changed fuel now ld).1 = false
      ∧ now ≤ (pollLoop changed fuel now ld).2
      ∧ (pollLoop changed fuel now ld).2 < ld + 200 := by
  intro fuel
  induction fuel with
  | zero => exact fun now ld h => ⟨rfl, le_rfl, h⟩
  | succ f ih =>
    intro now ld h
    by_cases hlt : now < ld
    · have hstep : pollLoop changed (f + 1) now ld = pollLoop changed f (now + 200) ld := by
        rw [pollLoop, if_pos hlt, hch now]
        simp
      rw [hstep]
      obtain ⟨h1, h2, h3⟩ := ih (now + 200) ld (by omega)
      exact ⟨h1, by omega, h3⟩
    · have hstep : pollLoop changed (f + 1) now ld = (false, now) := by
        rw [pollLoop, if_neg hlt]
      rw [hstep]
      exact ⟨rfl, le_rfl, h⟩

theorem ladder_never (page : Nat → PageView) (changed : Nat → Bool)
    (hch : ∀ t, changed t = false) (deadline : Nat) :
    ∀ (rungs attempts now : Nat), now ≤ deadline →
      (ladder page changed deadline rungs attempts now).1 = false
      ∧ (ladder page changed deadline rungs attempts now).2.2 < deadline + 2700 := by
  intro rungs
  induction rungs with
  | zero => exact fun attempts now h => ⟨rfl, by simp [ladder]; omega⟩
  | succ r ih =>
    intro attempts now h
    obtain ⟨hp1, hp2, hp3⟩ := pollLoop_never changed hch 13 now (now + 2500) (by omega)
    rcases hres : pollLoop changed 13 now (now + 2500) with ⟨b, n2⟩
    rw [hres] at hp1 hp2 hp3
    dsimp only at hp1 hp2 hp3
    subst hp1
    rw [ladder, hres]
    dsimp only
    by_cases hd : deadline ≤ n2
    · rw [if_pos hd]
      exact ⟨rfl, by dsimp only; omega⟩
    · rw [if_neg hd]
      exact ih (attempts + 1) n2 (by omega)

/-- C7 counterexample: on a page whose three navigation signals never
change, with the configured 12000 ms deadline, `goToNextVideo` does
return `moved = false` but only after 13000 ms — each ladder rung's
2500 ms poll window is checked against the overall deadline only after
it completes, so the call necessarily overshoots the deadline. -/
theorem goToNextVideo_deadline_overshoot :
    goToNextVideo (fun _ => ⟨"https://www.tiktok.com/@u/video/1", none, "cap"⟩) 12000 0
      = (false, 5, 13000)
    ∧ ¬ (13000 ≤ 12000) :=
  ⟨rfl, by decide⟩

/-- C7 (amended): on a page whose three navigation signals never change,
`goToNextVideo` terminates — it never retries past the ladder — with
`moved = false`, within its configured deadline plus bounded slack (one
2500 ms poll window, one 200 ms settle sleep and the 300 ms initial
corrective wait): `tookMs < timeoutMs + 3000`. -/
theorem goToNextVideo_static_page (v : PageView) (timeoutMs t0 : Nat) :
    (goToNextVideo (fun _ => v) timeoutMs t0).1 = false
    ∧ (goToNextVideo (fun _ => v) timeoutMs t0).2.2 < timeoutMs + 3000 := by
  unfold goToNextVideo
  dsimp only
  have hch : ∀ t, hasChangedAt (fun _ => v) v.url v.videoSrc v.caption t = false :=
    hasChangedAt_const v
  by_cases hvid : hasSub "/video/".data v.url.data = true
  · rw [if_pos hvid]
    dsimp only
    obtain ⟨h1, h2⟩ := ladder_never (fun _ => v) _ hch (t0 + timeoutMs) 6 0 t0 (by omega)
    exact ⟨h1, by omega⟩
  · rw [if_neg hvid]
    dsimp only
    obtain ⟨h1, h2⟩ := ladder_never (fun _ => v) _ hch (t0 + 300 + timeoutMs) 6 1 (t0 + 300)
      (by omega)
    exact ⟨h1, by omega⟩

end TiktokScrap
